import Mathlib

/-!
Verification of the directory-computation pipeline of Directorio_App.py.

The pipeline is shallow-embedded: dates are day numbers (Nat), dataframes are
lists of rows, and the pandas primitives actually exercised by the program
(to_datetime with coerce, row-wise max, groupby with sorted keys, merge on
keys where missing values match missing values, multi-key stable sort_values,
drop_duplicates keeping the first occurrence, left merge) are spelled out as
executable Lean functions.
-/

deriving instance DecidableEq for Except

namespace Derma

/-! ### String primitives

Python compares strings lexicographically by code point, and pandas
str.strip removes leading and trailing whitespace.  The built-in String
order and String.trim of Lean do not reduce in the kernel, so both are
re-implemented over the underlying character list. -/

/-- Lexicographic strict order on character lists, by code point. -/
def ltLista : List Char → List Char → Bool
  | [], [] => false
  | [], _ :: _ => true
  | _ :: _, [] => false
  | c :: cs, d :: ds => if c < d then true else if d < c then false else ltLista cs ds

/-- Python string comparison: lexicographic by code point. -/
def ltCadena (a b : String) : Bool := ltLista a.data b.data

/-- Whitespace test used by str.strip. -/
def esBlanco (c : Char) : Bool := c.isWhitespace

/-- pandas Series.str.strip: drop leading and trailing whitespace. -/
def stripCadena (s : String) : String :=
  String.mk (((s.data.dropWhile esBlanco).reverse.dropWhile esBlanco).reverse)

/-! ### Configuration constants (section A of the source) -/

def DIAS_EN_USO : Int := 90

def COL_CLIENTE : String := "Cliente"

def COL_VENDEDOR : String := "Nombredecontacto"

def FECHAS_COLS : List String :=
  ["Fechadepedido", "Fechadeenvíosolicitada", "Fechadevencimiento", "Fechaenviada",
   "Fechadelafactura", "FechadePago", "FECHA REAL DEPAGO", "fecha de envio"]

def CAT_LLAVE : String := "Cliente"

def CAT_CIUDAD : String := "Ciudad"

def CAT_EMAIL : String := "Correo electrónico"

def CAT_PAIS : String := "País"

def CAT_PROV : String := "Provincia"

def CAT_TEL : String := "Teléfono"

/-- Letter-to-field mapping for the same-workbook catalog sheet, in the
insertion order of the source dictionary CAT_MAP. -/
def CAT_MAP : List (String × String) :=
  [("C", CAT_LLAVE), ("A", CAT_CIUDAD), ("B", CAT_EMAIL),
   ("D", CAT_PAIS), ("E", CAT_PROV), ("F", CAT_TEL)]

/-! ### Raw transaction data and preparar_ventas -/

/-- A raw cell of a candidate date column: empty (NaN), an actual date value
(a day number), or text that pd.to_datetime cannot parse. -/
inductive Celda where
  | vacia : Celda
  | fecha : Nat → Celda
  | texto : String → Celda
deriving DecidableEq, Repr

/-- pd.to_datetime with errors coerce: date values parse, anything else
becomes missing (NaT) instead of raising. -/
def toDatetime : Celda → Option Nat
  | Celda.fecha d => some d
  | _ => none

/-- One row of the raw transaction sheet.  Only the columns the pipeline
reads are modelled: the client id, the contact (vendor) name, and the raw
cells of the candidate date columns, stored as an association list keyed by
column name. -/
structure FilaVentas where
  cliente : Option String
  vendedor : Option String
  celdas : List (String × Celda)
deriving DecidableEq, Repr

/-- The raw transaction dataframe: its schema (which date columns exist)
and its rows. -/
structure TablaVentas where
  columnas : List String
  filas : List FilaVentas
deriving DecidableEq, Repr

/-- The cell of row f in column c; a column present in the schema but
absent from the row association list is an empty (NaN) cell. -/
def celdaDe (f : FilaVentas) (c : String) : Celda :=
  match f.celdas.find? (fun p => p.1 == c) with
  | some p => p.2
  | none => Celda.vacia

/-- max with NaN skipped: the pandas max(axis=1, skipna=True) combiner. -/
def maxOpt : Option Nat → Option Nat → Option Nat
  | none, b => b
  | some a, none => some a
  | some a, some b => some (max a b)

/-- Row-wise maximum of a list of optional dates, missing when all are
missing. -/
def maxFila (l : List (Option Nat)) : Option Nat := l.foldl maxOpt none

/-- A prepared transaction row: the client id, the vendor name, and the
derived FechaVenta_Fila effective date. -/
structure FilaPrep where
  cliente : Option String
  vendedor : Option String
  fechaVentaFila : Option Nat
deriving DecidableEq, Repr

/-- The candidate date columns of FECHAS_COLS that exist in the schema,
in FECHAS_COLS order (the loop of preparar_ventas). -/
def columnasExistentes (df : TablaVentas) : List String :=
  FECHAS_COLS.filter (fun c => df.columnas.contains c)

/-- preparar_ventas: parse every present candidate date column with
to_datetime(errors=coerce), fail when no candidate column exists in the
schema, and otherwise derive FechaVenta_Fila as the row-wise max with NaN
skipped. -/
def preparar_ventas (df : TablaVentas) : Except String (List FilaPrep) :=
  let existentes := columnasExistentes df
  if existentes.isEmpty then
    Except.error "No se encontraron columnas de fecha validas. Ajusta FECHAS_COLS."
  else
    Except.ok (df.filas.map (fun f =>
      { cliente := f.cliente, vendedor := f.vendedor,
        fechaVentaFila := maxFila (existentes.map (fun c => toDatetime (celdaDe f c))) }))

/-! ### calcular_directorio -/

/-- Rows with a non-missing client id, with the id stripped:
df[df[COL_CLIENTE].notna()] followed by .str.strip(). -/
def filasValidas (fs : List FilaPrep) : List FilaPrep :=
  (fs.filter (fun f => f.cliente.isSome)).map
    (fun f => { f with cliente := f.cliente.map stripCadena })

/-- Insert a key into a sorted duplicate-free key list (the groupby key
index, which pandas keeps sorted). -/
def insertaClave (k : String) : List String → List String
  | [] => [k]
  | x :: xs =>
    if k = x then x :: xs
    else if ltCadena k x then k :: x :: xs
    else x :: insertaClave k xs

/-- The distinct client ids, ascending: the group keys of
groupby(COL_CLIENTE), which pandas returns sorted. -/
def clavesOrdenadas (fs : List FilaPrep) : List String :=
  (fs.filterMap (fun f => f.cliente)).foldl (fun acc k => insertaClave k acc) []

/-- The rows of one groupby group. -/
def grupoDe (fs : List FilaPrep) (k : String) : List FilaPrep :=
  fs.filter (fun f => f.cliente == some k)

/-- UltimaFechaVenta of a group: max of FechaVenta_Fila with NaT skipped. -/
def ultimaFechaDe (fs : List FilaPrep) (k : String) : Option Nat :=
  maxFila ((grupoDe fs k).map (fun f => f.fechaVentaFila))

/-- Dias_desde_ultima_venta: (hoy - UltimaFechaVenta).dt.days, missing when
the date is missing. -/
def diasDesde (hoy : Int) : Option Nat → Option Int
  | none => none
  | some f => some (hoy - (f : Int))

/-- The function estatus of the source: Disponible when the last sale date
is missing, En uso when the days since the last sale are below DIAS_EN_USO,
Disponible otherwise. -/
def estatusDe (hoy : Int) : Option Nat → String
  | none => "Disponible"
  | some f => if hoy - (f : Int) < DIAS_EN_USO then "En uso" else "Disponible"

/-- One row of the agg frame produced by groupby().agg plus the derived
columns. -/
structure Agregado where
  cliente : String
  ultimaFechaVenta : Option Nat
  dias : Option Int
  estatus : String
deriving DecidableEq, Repr

def agregadoDe (hoy : Int) (fs : List FilaPrep) (k : String) : Agregado :=
  { cliente := k, ultimaFechaVenta := ultimaFechaDe fs k,
    dias := diasDesde hoy (ultimaFechaDe fs k),
    estatus := estatusDe hoy (ultimaFechaDe fs k) }

/-- One row of dir_df after the vendor merge. -/
structure FilaDir where
  cliente : String
  ultimaFechaVenta : Option Nat
  dias : Option Int
  estatus : String
  fechaVentaFila : Option Nat
  vendedor : Option String
deriving DecidableEq, Repr

/-- The df_join rows matching one agg row in the merge on
(Cliente, UltimaFechaVenta) = (Cliente, FechaVenta_Fila).  pandas matches
missing keys to missing keys, which Option equality reproduces. -/
def coincidencias (fs : List FilaPrep) (a : Agregado) : List FilaPrep :=
  fs.filter (fun f => f.cliente == some a.cliente && f.fechaVentaFila == a.ultimaFechaVenta)

/-- The left merge of agg with df_join: left rows in order, each followed by
its matches in right order, an unmatched left row yielding one row with the
right columns missing. -/
def mergeVendedor (agg : List Agregado) (fs : List FilaPrep) : List FilaDir :=
  agg.flatMap (fun a =>
    match coincidencias fs a with
    | [] => [{ cliente := a.cliente, ultimaFechaVenta := a.ultimaFechaVenta, dias := a.dias,
               estatus := a.estatus, fechaVentaFila := none, vendedor := none }]
    | ms => ms.map (fun f =>
        { cliente := a.cliente, ultimaFechaVenta := a.ultimaFechaVenta, dias := a.dias,
          estatus := a.estatus, fechaVentaFila := f.fechaVentaFila, vendedor := f.vendedor }))

/-- Descending comparison on optional dates with missing values last, the
key order of sort_values(ascending=False, na_position=last). -/
def leFechaDesc (a b : Option Nat) : Bool :=
  match a, b with
  | none, none => true
  | none, some _ => false
  | some _, none => true
  | some x, some y => decide (y ≤ x)

/-- The two-key order of sort_values([Cliente, FechaVenta_Fila],
ascending=[True, False]). -/
def leJoinB (a b : FilaDir) : Bool :=
  ltCadena a.cliente b.cliente ||
    (a.cliente == b.cliente && leFechaDesc a.fechaVentaFila b.fechaVentaFila)

def leJoin (a b : FilaDir) : Prop := leJoinB a b = true

instance : DecidableRel leJoin := fun a b => by unfold leJoin; infer_instance

/-- drop_duplicates keeping the first occurrence of each key, given the set
of keys already seen. -/
def dropDupBy {α β : Type} [BEq β] (key : α → β) : List α → List β → List α
  | [], _ => []
  | x :: xs, vistos =>
    if vistos.contains (key x) then dropDupBy key xs vistos
    else x :: dropDupBy key xs (key x :: vistos)

/-- One row of the base directory (the out frame of calcular_directorio,
columns Cliente, Estatus, Dias_desde_ultima_venta, UltimoVendedor,
UltimaFechaVenta). -/
structure Entrada where
  cliente : String
  estatus : String
  dias : Option Int
  ultimoVendedor : Option String
  ultimaFechaVenta : Option Nat
deriving DecidableEq, Repr

/-- Ascending comparison on optional day counts with missing values last. -/
def leDias (a b : Option Int) : Bool :=
  match a, b with
  | none, none => true
  | none, some _ => false
  | some _, none => true
  | some x, some y => decide (x ≤ y)

/-- The two-key order of the final
sort_values([Estatus, Dias_desde_ultima_venta], ascending=[True, True]). -/
def leFinalB (a b : Entrada) : Bool :=
  ltCadena a.estatus b.estatus || (a.estatus == b.estatus && leDias a.dias b.dias)

def leFinal (a b : Entrada) : Prop := leFinalB a b = true

instance : DecidableRel leFinal := fun a b => by unfold leFinal; infer_instance

/-- The out frame of calcular_directorio before the final sort: filter and
strip the client ids, aggregate per sorted group key, merge the vendor of
the row carrying the last date, sort by (Cliente asc, FechaVenta_Fila desc),
keep the first row per client, and select the output columns. -/
def directorioSinOrden (hoy : Int) (fs : List FilaPrep) : List Entrada :=
  let df := filasValidas fs
  let agg := (clavesOrdenadas df).map (agregadoDe hoy df)
  let dirdf := List.insertionSort leJoin (mergeVendedor agg df)
  let unicos := dropDupBy (fun d => d.cliente) dirdf []
  unicos.map (fun d =>
    { cliente := d.cliente, estatus := d.estatus, dias := d.dias,
      ultimoVendedor := d.vendedor, ultimaFechaVenta := d.ultimaFechaVenta })

/-- calcular_directorio: the base directory, finally sorted by
(Estatus asc, Dias_desde_ultima_venta asc); a multi-key sort_values is a
stable lexicographic sort in pandas, which insertion sort reproduces. -/
def calcular_directorio (hoy : Int) (fs : List FilaPrep) : List Entrada :=
  List.insertionSort leFinal (directorioSinOrden hoy fs)

/-! ### Catalog loading -/

/-- One raw row of the same-workbook catalog sheet, read with header=None:
six positional cells for the spreadsheet columns A through F. -/
structure FilaHoja where
  colA : Option String
  colB : Option String
  colC : Option String
  colD : Option String
  colE : Option String
  colF : Option String
deriving DecidableEq, Repr

/-- The order in which pandas returns a usecols selection: document (sheet)
order.  Per the pandas documentation of usecols, the element order of the
requested list is ignored, so usecols "C,A,B,D,E,F" yields the columns
A,B,C,D,E,F in this order. -/
def ordenDocumento : List String := ["A", "B", "C", "D", "E", "F"]

/-- The cell of a sheet row at a given column letter. -/
def celdaLetra (r : FilaHoja) : String → Option String
  | "A" => r.colA
  | "B" => r.colB
  | "C" => r.colC
  | "D" => r.colD
  | "E" => r.colE
  | "F" => r.colF
  | _ => none

/-- The effect of the assignment cat.columns = nombres: the i-th column of
the frame in document order receives the i-th name of CAT_MAP. -/
def asignacionColumnas : List (String × String) :=
  ordenDocumento.zip (CAT_MAP.map (fun p => p.2))

/-- The value of the renamed column nombre in a sheet row: the cell of the
letter that the positional assignment bound to that name. -/
def campoHoja (r : FilaHoja) (nombre : String) : Option String :=
  match asignacionColumnas.find? (fun p => p.2 == nombre) with
  | some p => celdaLetra r p.1
  | none => none

/-- One row of a catalog table, with the six semantic fields. -/
structure FilaCat where
  cliente : Option String
  ciudad : Option String
  correo : Option String
  pais : Option String
  provincia : Option String
  telefono : Option String
deriving DecidableEq, Repr

/-- A sheet row after the positional renaming, projected to the semantic
fields. -/
def filaCatDeHoja (r : FilaHoja) : FilaCat :=
  { cliente := campoHoja r CAT_LLAVE, ciudad := campoHoja r CAT_CIUDAD,
    correo := campoHoja r CAT_EMAIL, pais := campoHoja r CAT_PAIS,
    provincia := campoHoja r CAT_PROV, telefono := campoHoja r CAT_TEL }

/-- Strip the key column of a catalog row
(cat[CAT_LLAVE].astype(string).str.strip()). -/
def stripLlave (f : FilaCat) : FilaCat := { f with cliente := f.cliente.map stripCadena }

/-- cargar_catalogo_mismo_excel: read the alternate sheet (any read failure
is caught, a warning is shown and None is returned), rename the columns
positionally, strip the key, drop rows with a missing key and keep the
first row of each duplicated key. -/
def cargar_catalogo_mismo_excel (lectura : Except String (List FilaHoja)) :
    Option (List FilaCat) :=
  match lectura with
  | Except.error _ => none
  | Except.ok filas =>
    let cat := (filas.map filaCatDeHoja).map stripLlave
    let cat := cat.filter (fun f => f.cliente.isSome)
    some (dropDupBy (fun f => f.cliente) cat [])

/-- An external catalog file as read by pandas: whether the key column
exists in its schema, and its rows.  The five contact columns are modelled
as always present. -/
structure TablaCatExt where
  tieneLlave : Bool
  filas : List FilaCat
deriving DecidableEq, Repr

/-- cargar_catalogo_local: None when the file does not exist or the key
column is absent; a read exception is not caught and propagates; otherwise
the key is stripped and the recognized columns are kept.  No row is
dropped and no duplicate key is removed here. -/
def cargar_catalogo_local (existe : Bool) (lectura : Except String TablaCatExt) :
    Except String (Option (List FilaCat)) :=
  if existe then
    match lectura with
    | Except.error e => Except.error e
    | Except.ok t =>
      if t.tieneLlave then Except.ok (some (t.filas.map stripLlave))
      else Except.ok none
  else Except.ok none

/-- cargar_catalogo_drive: None when no file id is configured or the key
column is absent; a read exception is not caught and propagates; otherwise
the key is stripped and the recognized columns are kept.  No row is
dropped and no duplicate key is removed here. -/
def cargar_catalogo_drive (fileId : Option String) (lectura : Except String TablaCatExt) :
    Except String (Option (List FilaCat)) :=
  match fileId with
  | none => Except.ok none
  | some _ =>
    match lectura with
    | Except.error e => Except.error e
    | Except.ok t =>
      if t.tieneLlave then Except.ok (some (t.filas.map stripLlave))
      else Except.ok none

/-! ### merge_catalogo -/

/-- One row of the final enriched table. -/
structure EntradaFinal where
  cliente : String
  ciudad : Option String
  correo : Option String
  pais : Option String
  provincia : Option String
  telefono : Option String
  estatus : String
  dias : Option Int
  ultimoVendedor : Option String
  ultimaFechaVenta : Option Nat
deriving DecidableEq, Repr

/-- The columns of the base directory. -/
def COLS_DIR : List String :=
  [COL_CLIENTE, "Estatus", "Dias_desde_ultima_venta", "UltimoVendedor", "UltimaFechaVenta"]

/-- A directory row passed through without catalog data. -/
def sinCatalogo (e : Entrada) : EntradaFinal :=
  { cliente := e.cliente, ciudad := none, correo := none, pais := none, provincia := none,
    telefono := none, estatus := e.estatus, dias := e.dias,
    ultimoVendedor := e.ultimoVendedor, ultimaFechaVenta := e.ultimaFechaVenta }

/-- A directory row joined with one catalog row. -/
def conCatalogo (e : Entrada) (f : FilaCat) : EntradaFinal :=
  { cliente := e.cliente, ciudad := f.ciudad, correo := f.correo, pais := f.pais,
    provincia := f.provincia, telefono := f.telefono, estatus := e.estatus, dias := e.dias,
    ultimoVendedor := e.ultimoVendedor, ultimaFechaVenta := e.ultimaFechaVenta }

/-- The catalog row of NaN values a left merge fills in for an unmatched
directory row. -/
def filaCatVacia : FilaCat :=
  { cliente := none, ciudad := none, correo := none, pais := none,
    provincia := none, telefono := none }

/-- The final table: its column order and its rows. -/
structure TablaFinal where
  columnas : List String
  filas : List EntradaFinal
deriving DecidableEq, Repr

/-- The candidate column order built by merge_catalogo before filtering by
presence. -/
def ordenCandidatos : List String :=
  [COL_CLIENTE, CAT_CIUDAD, CAT_EMAIL, CAT_PAIS, CAT_PROV, CAT_TEL,
   "Estatus", "Dias_desde_ultima_venta", "UltimoVendedor", "UltimaFechaVenta"]

/-- merge_catalogo: with no catalog return the directory unchanged;
otherwise left merge on the client id (left rows in order, each followed by
its matches, an unmatched row filled with NaN) and reorder the columns. -/
def merge_catalogo (directorio : List Entrada) (cat : Option (List FilaCat)) : TablaFinal :=
  match cat with
  | none => { columnas := COLS_DIR, filas := directorio.map sinCatalogo }
  | some c =>
    let filas := directorio.flatMap (fun e =>
      match c.filter (fun f => f.cliente == some e.cliente) with
      | [] => [conCatalogo e filaCatVacia]
      | ms => ms.map (conCatalogo e))
    let presentes := COLS_DIR ++ [CAT_CIUDAD, CAT_EMAIL, CAT_PAIS, CAT_PROV, CAT_TEL]
    { columnas := ordenCandidatos.filter (fun x => presentes.contains x), filas := filas }

/-! ### The module-level load sequence (section E of the source) -/

/-- The configured id of a separate catalog file on Drive: None in the
source, so the Drive fallback never reads anything. -/
def GDRIVE_FILE_ID_CATALOGO : Option String := none

/-- The local-mode run: fail when the sales file is missing or unreadable
or when preparar_ventas fails; then try the same-workbook catalog sheet,
falling back to the optional local catalog file; finally compute the
directory and merge the catalog.  An uncaught exception anywhere aborts
the run. -/
def pipeline_local (hoy : Int) (ventasExiste : Bool)
    (lecturaVentas : Except String TablaVentas)
    (lecturaHoja : Except String (List FilaHoja))
    (catalogoExiste : Bool) (lecturaExt : Except String TablaCatExt) :
    Except String TablaFinal :=
  if ventasExiste then
    match lecturaVentas with
    | Except.error e => Except.error e
    | Except.ok raw =>
      match preparar_ventas raw with
      | Except.error e => Except.error e
      | Except.ok ventas =>
        match (match cargar_catalogo_mismo_excel lecturaHoja with
               | some c => Except.ok (some c)
               | none => cargar_catalogo_local catalogoExiste lecturaExt) with
        | Except.error e => Except.error e
        | Except.ok cat => Except.ok (merge_catalogo (calcular_directorio hoy ventas) cat)
  else Except.error "No encuentro el archivo de ventas"

/-- The drive-mode run: like the local one, but the fallback reads the
separate Drive catalog, whose file id is unconfigured (None). -/
def pipeline_drive (hoy : Int) (lecturaVentas : Except String TablaVentas)
    (lecturaHoja : Except String (List FilaHoja))
    (lecturaExt : Except String TablaCatExt) :
    Except String TablaFinal :=
  match lecturaVentas with
  | Except.error e => Except.error e
  | Except.ok raw =>
    match preparar_ventas raw with
    | Except.error e => Except.error e
    | Except.ok ventas =>
      match (match cargar_catalogo_mismo_excel lecturaHoja with
             | some c => Except.ok (some c)
             | none => cargar_catalogo_drive GDRIVE_FILE_ID_CATALOGO lecturaExt) with
      | Except.error e => Except.error e
      | Except.ok cat => Except.ok (merge_catalogo (calcular_directorio hoy ventas) cat)

/-! ### Order lemmas for the string comparison -/

lemma ltLista_irrefl : ∀ xs : List Char, ltLista xs xs = false := by
  intro xs
  induction xs with
  | nil => rfl
  | cons c cs ih => simp [ltLista, lt_irrefl, ih]

lemma ltLista_trans : ∀ xs ys zs : List Char,
    ltLista xs ys = true → ltLista ys zs = true → ltLista xs zs = true := by
  intro xs
  induction xs with
  | nil =>
    intro ys zs h1 h2
    cases ys with
    | nil => exact h2
    | cons d ds =>
      cases zs with
      | nil => simp [ltLista] at h2
      | cons e es => simp [ltLista]
  | cons c cs ih =>
    intro ys zs h1 h2
    cases ys with
    | nil => simp [ltLista] at h1
    | cons d ds =>
      cases zs with
      | nil => simp [ltLista] at h2
      | cons e es =>
        simp only [ltLista] at h1 h2 ⊢
        by_cases hcd : c < d
        · by_cases hde : d < e
          · simp [lt_trans hcd hde]
          · by_cases hed : e < d
            · simp [hde, hed] at h2
            · have hde2 : d = e := le_antisymm (not_lt.mp hed) (not_lt.mp hde)
              subst hde2
              simp [hcd]
        · by_cases hdc : d < c
          · simp [hcd, hdc] at h1
          · have hcd2 : c = d := le_antisymm (not_lt.mp hdc) (not_lt.mp hcd)
            subst hcd2
            simp only [lt_irrefl, if_false, if_neg] at h1
            by_cases hce : c < e
            · simp [hce]
            · by_cases hec : e < c
              · simp [hce, hec] at h2
              · have hce2 : c = e := le_antisymm (not_lt.mp hec) (not_lt.mp hce)
                subst hce2
                simp only [lt_irrefl, if_false, if_neg] at h2 ⊢
                exact ih ds es h1 h2

lemma ltLista_tricho : ∀ xs ys : List Char,
    ltLista xs ys = true ∨ xs = ys ∨ ltLista ys xs = true := by
  intro xs
  induction xs with
  | nil =>
    intro ys
    cases ys with
    | nil => right; left; rfl
    | cons d ds => left; rfl
  | cons c cs ih =>
    intro ys
    cases ys with
    | nil => right; right; rfl
    | cons d ds =>
      rcases lt_trichotomy c d with h | h | h
      · left; simp [ltLista, h]
      · subst h
        rcases ih ds with h2 | h2 | h2
        · left; simp [ltLista, lt_irrefl, h2]
        · right; left; rw [h2]
        · right; right; simp [ltLista, lt_irrefl, h2]
      · right; right; simp [ltLista, h]

lemma ltCadena_irrefl (a : String) : ltCadena a a = false := ltLista_irrefl a.data

lemma ltCadena_trans {a b c : String} (h1 : ltCadena a b = true) (h2 : ltCadena b c = true) :
    ltCadena a c = true := ltLista_trans a.data b.data c.data h1 h2

lemma ltCadena_tricho (a b : String) : ltCadena a b = true ∨ a = b ∨ ltCadena b a = true := by
  rcases ltLista_tricho a.data b.data with h | h | h
  · left; exact h
  · right; left
    cases a with
    | mk la =>
      cases b with
      | mk lb => simp only at h; rw [h]
  · right; right; exact h

lemma ltCadena_ne {a b : String} (h : ltCadena a b = true) : a ≠ b := by
  intro he
  subst he
  rw [ltCadena_irrefl] at h
  exact Bool.false_ne_true h

/-! ### Lemmas on the optional-value comparisons -/

lemma leDias_refl (a : Option Int) : leDias a a = true := by
  cases a <;> simp [leDias]

lemma leDias_total (a b : Option Int) : leDias a b = true ∨ leDias b a = true := by
  cases a <;> cases b <;> simp [leDias] <;> omega

lemma leDias_trans {a b c : Option Int} (h1 : leDias a b = true) (h2 : leDias b c = true) :
    leDias a c = true := by
  cases a <;> cases b <;> cases c <;> simp [leDias] at h1 h2 ⊢ <;> omega

lemma leFechaDesc_refl (a : Option Nat) : leFechaDesc a a = true := by
  cases a <;> simp [leFechaDesc]

lemma leFechaDesc_total (a b : Option Nat) : leFechaDesc a b = true ∨ leFechaDesc b a = true := by
  cases a <;> cases b <;> simp [leFechaDesc] <;> omega

lemma leFechaDesc_trans {a b c : Option Nat} (h1 : leFechaDesc a b = true)
    (h2 : leFechaDesc b c = true) : leFechaDesc a c = true := by
  cases a <;> cases b <;> cases c <;> simp [leFechaDesc] at h1 h2 ⊢ <;> omega

/-! ### The sort orders are total preorders -/

lemma leJoinB_iff (a b : FilaDir) : leJoinB a b = true ↔
    ltCadena a.cliente b.cliente = true ∨
      (a.cliente = b.cliente ∧ leFechaDesc a.fechaVentaFila b.fechaVentaFila = true) := by
  unfold leJoinB
  simp [Bool.or_eq_true, Bool.and_eq_true]

instance : IsTotal FilaDir leJoin where
  total := by
    intro a b
    unfold leJoin
    rw [leJoinB_iff, leJoinB_iff]
    rcases ltCadena_tricho a.cliente b.cliente with h | h | h
    · left; left; exact h
    · rcases leFechaDesc_total a.fechaVentaFila b.fechaVentaFila with h2 | h2
      · left; right; exact ⟨h, h2⟩
      · right; right; exact ⟨h.symm, h2⟩
    · right; left; exact h

instance : IsTrans FilaDir leJoin where
  trans := by
    intro a b c hab hbc
    unfold leJoin at hab hbc ⊢
    rw [leJoinB_iff] at hab hbc ⊢
    rcases hab with h1 | ⟨h1, h1f⟩
    · rcases hbc with h2 | ⟨h2, _⟩
      · left; exact ltCadena_trans h1 h2
      · left; rw [← h2]; exact h1
    · rcases hbc with h2 | ⟨h2, h2f⟩
      · left; rw [h1]; exact h2
      · right; exact ⟨h1.trans h2, leFechaDesc_trans h1f h2f⟩

lemma leFinalB_iff (a b : Entrada) : leFinalB a b = true ↔
    ltCadena a.estatus b.estatus = true ∨
      (a.estatus = b.estatus ∧ leDias a.dias b.dias = true) := by
  unfold leFinalB
  simp [Bool.or_eq_true, Bool.and_eq_true]

instance : IsTotal Entrada leFinal where
  total := by
    intro a b
    unfold leFinal
    rw [leFinalB_iff, leFinalB_iff]
    rcases ltCadena_tricho a.estatus b.estatus with h | h | h
    · left; left; exact h
    · rcases leDias_total a.dias b.dias with h2 | h2
      · left; right; exact ⟨h, h2⟩
      · right; right; exact ⟨h.symm, h2⟩
    · right; left; exact h

instance : IsTrans Entrada leFinal where
  trans := by
    intro a b c hab hbc
    unfold leFinal at hab hbc ⊢
    rw [leFinalB_iff] at hab hbc ⊢
    rcases hab with h1 | ⟨h1, h1f⟩
    · rcases hbc with h2 | ⟨h2, _⟩
      · left; exact ltCadena_trans h1 h2
      · left; rw [← h2]; exact h1
    · rcases hbc with h2 | ⟨h2, h2f⟩
      · left; rw [h1]; exact h2
      · right; exact ⟨h1.trans h2, leDias_trans h1f h2f⟩

/-! ### Lemmas on the skipna maximum -/

lemma foldl_maxOpt_none : ∀ (l : List (Option Nat)) (acc : Option Nat),
    l.foldl maxOpt acc = none ↔ acc = none ∧ ∀ x ∈ l, x = none := by
  intro l
  induction l with
  | nil => intro acc; simp
  | cons a l ih =>
    intro acc
    rw [List.foldl_cons, ih]
    constructor
    · rintro ⟨h1, h2⟩
      cases acc <;> cases a <;> simp [maxOpt] at h1 ⊢ <;> exact h2
    · rintro ⟨h1, h2⟩
      subst h1
      have ha : a = none := h2 a (by simp)
      subst ha
      refine ⟨rfl, fun x hx => h2 x (by simp [hx])⟩

lemma maxFila_eq_none_iff (l : List (Option Nat)) :
    maxFila l = none ↔ ∀ x ∈ l, x = none := by
  unfold maxFila
  rw [foldl_maxOpt_none]
  simp

lemma foldl_maxOpt_mem : ∀ (l : List (Option Nat)) (acc : Option Nat) (d : Nat),
    l.foldl maxOpt acc = some d → acc = some d ∨ some d ∈ l := by
  intro l
  induction l with
  | nil => intro acc d h; left; exact h
  | cons a l ih =>
    intro acc d h
    rw [List.foldl_cons] at h
    rcases ih _ _ h with h2 | h2
    · cases acc with
      | none =>
        cases a with
        | none => simp [maxOpt] at h2
        | some y => right; simp [maxOpt] at h2; simp [h2]
      | some x =>
        cases a with
        | none => left; exact h2
        | some y =>
          simp [maxOpt] at h2
          rcases max_choice x y with hm | hm
          · left; rw [← h2, hm]
          · right; rw [← h2, hm]; simp
    · right; simp [h2]

lemma maxFila_mem {l : List (Option Nat)} {d : Nat} (h : maxFila l = some d) : some d ∈ l := by
  rcases foldl_maxOpt_mem l none d h with h2 | h2
  · exact absurd h2 (by simp)
  · exact h2

lemma foldl_maxOpt_ge : ∀ (l : List (Option Nat)) (y : Nat) (acc : Option Nat),
    acc = some y → ∀ d, l.foldl maxOpt acc = some d → y ≤ d := by
  intro l
  induction l with
  | nil =>
    intro y acc hacc d h
    rw [hacc] at h
    simp at h
    omega
  | cons a l ih =>
    intro y acc hacc d h
    subst hacc
    rw [List.foldl_cons] at h
    cases a with
    | none => exact ih y _ rfl d h
    | some b =>
      have := ih (max y b) _ rfl d h
      omega

lemma foldl_maxOpt_ge_mem : ∀ (l : List (Option Nat)) (acc : Option Nat) (d : Nat),
    l.foldl maxOpt acc = some d → ∀ y, some y ∈ l → y ≤ d := by
  intro l
  induction l with
  | nil =>
    intro acc d _ y hy
    simp at hy
  | cons a l ih =>
    intro acc d h y hy
    rw [List.foldl_cons] at h
    rcases List.mem_cons.mp hy with hy1 | hy1
    · cases acc with
      | none =>
        rw [← hy1] at h
        exact foldl_maxOpt_ge l y (maxOpt none (some y)) rfl d h
      | some x =>
        rw [← hy1] at h
        have := foldl_maxOpt_ge l (max x y) (maxOpt (some x) (some y)) rfl d h
        omega
    · exact ih _ _ h y hy1

lemma maxFila_ge {l : List (Option Nat)} {d : Nat} (h : maxFila l = some d) :
    ∀ x ∈ l, ∀ y, x = some y → y ≤ d := by
  intro x hx y hxy
  subst hxy
  exact foldl_maxOpt_ge_mem l none d h y hx

/-! ### Lemmas on drop_duplicates -/

lemma contains_cons_eq {β : Type} [BEq β] (v : β) (vs : List β) (b : β) :
    (v :: vs).contains b = (b == v || vs.contains b) := by
  cases h : b == v <;> simp [List.contains, List.elem, h]

lemma mem_dropDupBy {α β : Type} [BEq β] (key : α → β) :
    ∀ (l : List α) (vistos : List β) (x : α), x ∈ dropDupBy key l vistos → x ∈ l := by
  intro l
  induction l with
  | nil => intro vistos x h; simp [dropDupBy] at h
  | cons y ys ih =>
    intro vistos x h
    simp only [dropDupBy] at h
    cases hc : vistos.contains (key y) with
    | true =>
      rw [hc] at h
      simp only [if_true] at h
      exact List.mem_cons_of_mem _ (ih _ _ h)
    | false =>
      rw [hc] at h
      simp only [Bool.false_eq_true, if_false] at h
      rcases List.mem_cons.mp h with h1 | h1
      · rw [h1]; simp
      · exact List.mem_cons_of_mem _ (ih _ _ h1)

lemma dropDupBy_key_not_visto {α β : Type} [BEq β] (key : α → β) :
    ∀ (l : List α) (vistos : List β) (x : α), x ∈ dropDupBy key l vistos →
      vistos.contains (key x) = false := by
  intro l
  induction l with
  | nil => intro vistos x h; simp [dropDupBy] at h
  | cons y ys ih =>
    intro vistos x h
    simp only [dropDupBy] at h
    cases hc : vistos.contains (key y) with
    | true =>
      rw [hc] at h
      simp only [if_true] at h
      exact ih _ _ h
    | false =>
      rw [hc] at h
      simp only [Bool.false_eq_true, if_false] at h
      rcases List.mem_cons.mp h with h1 | h1
      · rw [h1]; exact hc
      · have h2 := ih _ _ h1
        rw [contains_cons_eq] at h2
        exact (Bool.or_eq_false_iff.mp h2).2

lemma nodup_keys_dropDupBy {α β : Type} [BEq β] [LawfulBEq β] (key : α → β) :
    ∀ (l : List α) (vistos : List β), ((dropDupBy key l vistos).map key).Nodup := by
  intro l
  induction l with
  | nil => intro vistos; simp [dropDupBy]
  | cons y ys ih =>
    intro vistos
    simp only [dropDupBy]
    cases hc : vistos.contains (key y) with
    | true => simp only [if_true]; exact ih _
    | false =>
      simp only [Bool.false_eq_true, if_false, List.map_cons, List.nodup_cons]
      refine ⟨?_, ih _⟩
      intro hmem
      obtain ⟨x, hx, hkx⟩ := List.mem_map.mp hmem
      have h2 := dropDupBy_key_not_visto key ys (key y :: vistos) x hx
      rw [contains_cons_eq, hkx] at h2
      simp at h2

lemma head_filter_dropDupBy {α β : Type} [BEq β] [LawfulBEq β] (key : α → β) :
    ∀ (l : List α) (vistos : List β) (x : α), x ∈ dropDupBy key l vistos →
      (l.filter (fun y => key y == key x)).head? = some x := by
  intro l
  induction l with
  | nil => intro vistos x h; simp [dropDupBy] at h
  | cons y ys ih =>
    intro vistos x h
    simp only [dropDupBy] at h
    cases hc : vistos.contains (key y) with
    | true =>
      rw [hc] at h
      simp only [if_true] at h
      have hne : (key y == key x) = false := by
        cases hk : key y == key x
        · rfl
        · have hxk := dropDupBy_key_not_visto key ys vistos x h
          rw [← eq_of_beq hk] at hxk
          rw [hxk] at hc
          exact absurd hc (by simp)
      rw [List.filter_cons]
      simp only [hne, Bool.false_eq_true, if_false]
      exact ih _ _ h
    | false =>
      rw [hc] at h
      simp only [Bool.false_eq_true, if_false] at h
      rcases List.mem_cons.mp h with h1 | h1
      · subst h1
        rw [List.filter_cons]
        simp
      · have hxk := dropDupBy_key_not_visto key ys (key y :: vistos) x h1
        rw [contains_cons_eq] at hxk
        have hxy : (key x == key y) = false := (Bool.or_eq_false_iff.mp hxk).1
        have hyx : (key y == key x) = false := by
          cases hk : key y == key x
          · rfl
          · rw [eq_of_beq hk] at hxy
            simp at hxy
        rw [List.filter_cons]
        simp only [hyx, Bool.false_eq_true, if_false]
        exact ih _ _ h1

lemma dropDupBy_append_seen {α β : Type} [BEq β] (key : α → β) :
    ∀ (pre rest : List α) (vistos : List β),
      (∀ x ∈ pre, vistos.contains (key x) = true) →
      dropDupBy key (pre ++ rest) vistos = dropDupBy key rest vistos := by
  intro pre
  induction pre with
  | nil => intro rest vistos _; rfl
  | cons y ys ih =>
    intro rest vistos h
    rw [List.cons_append]
    simp only [dropDupBy]
    rw [h y (by simp)]
    simp only [if_true]
    exact ih rest vistos (fun x hx => h x (by simp [hx]))

lemma dropDupBy_congr_vistos {α β : Type} [BEq β] (key : α → β) :
    ∀ (l : List α) (v1 v2 : List β),
      (∀ x ∈ l, v1.contains (key x) = v2.contains (key x)) →
      dropDupBy key l v1 = dropDupBy key l v2 := by
  intro l
  induction l with
  | nil => intro v1 v2 _; rfl
  | cons y ys ih =>
    intro v1 v2 h
    simp only [dropDupBy]
    rw [h y (by simp)]
    cases hc : v2.contains (key y) with
    | true =>
      simp only [if_true]
      exact ih v1 v2 (fun x hx => h x (by simp [hx]))
    | false =>
      simp only [Bool.false_eq_true, if_false]
      congr 1
      refine ih (key y :: v1) (key y :: v2) (fun x hx => ?_)
      rw [contains_cons_eq, contains_cons_eq, h x (by simp [hx])]

/-! ### Lemmas on the sorted group keys -/

def ltC (a b : String) : Prop := ltCadena a b = true

lemma mem_insertaClave (k : String) : ∀ (l : List String) (m : String),
    m ∈ insertaClave k l ↔ m = k ∨ m ∈ l := by
  intro l
  induction l with
  | nil => intro m; simp [insertaClave]
  | cons x xs ih =>
    intro m
    simp only [insertaClave]
    split_ifs with h1 h2
    · subst h1
      simp [List.mem_cons]
    · simp [List.mem_cons]
    · simp only [List.mem_cons, ih]
      tauto

lemma pairwise_insertaClave (k : String) : ∀ (l : List String),
    l.Pairwise ltC → (insertaClave k l).Pairwise ltC := by
  intro l
  induction l with
  | nil => intro _; simp [insertaClave, List.pairwise_cons]
  | cons x xs ih =>
    intro hp
    rw [List.pairwise_cons] at hp
    obtain ⟨hx, hxs⟩ := hp
    simp only [insertaClave]
    split_ifs with h1 h2
    · exact List.pairwise_cons.mpr ⟨hx, hxs⟩
    · refine List.pairwise_cons.mpr ⟨?_, List.pairwise_cons.mpr ⟨hx, hxs⟩⟩
      intro y hy
      rcases List.mem_cons.mp hy with h3 | h3
      · rw [h3]; exact h2
      · exact ltCadena_trans h2 (hx y h3)
    · have hxk : ltC x k := by
        rcases ltCadena_tricho k x with h3 | h3 | h3
        · exact absurd h3 h2
        · exact absurd h3 h1
        · exact h3
      refine List.pairwise_cons.mpr ⟨?_, ih hxs⟩
      intro y hy
      rcases (mem_insertaClave k xs y).mp hy with h3 | h3
      · rw [h3]; exact hxk
      · exact hx y h3

lemma pairwise_foldl_insertaClave : ∀ (ks acc : List String),
    acc.Pairwise ltC → (ks.foldl (fun acc k => insertaClave k acc) acc).Pairwise ltC := by
  intro ks
  induction ks with
  | nil => intro acc h; exact h
  | cons k ks ih =>
    intro acc h
    exact ih _ (pairwise_insertaClave k acc h)

lemma pairwise_clavesOrdenadas (fs : List FilaPrep) : (clavesOrdenadas fs).Pairwise ltC :=
  pairwise_foldl_insertaClave _ [] (by simp)

lemma nodup_clavesOrdenadas (fs : List FilaPrep) : (clavesOrdenadas fs).Nodup :=
  (pairwise_clavesOrdenadas fs).imp (fun h => ltCadena_ne h)

lemma mem_foldl_insertaClave : ∀ (ks acc : List String) (m : String),
    m ∈ ks.foldl (fun acc k => insertaClave k acc) acc ↔ m ∈ acc ∨ m ∈ ks := by
  intro ks
  induction ks with
  | nil => intro acc m; simp
  | cons k ks ih =>
    intro acc m
    rw [List.foldl_cons, ih, mem_insertaClave]
    simp [List.mem_cons]
    tauto

lemma mem_clavesOrdenadas (fs : List FilaPrep) (k : String) :
    k ∈ clavesOrdenadas fs ↔ ∃ f ∈ fs, f.cliente = some k := by
  unfold clavesOrdenadas
  rw [mem_foldl_insertaClave]
  simp [List.mem_filterMap]

/-! ### Characterizing the directory computation -/

/-- The rows the left merge produces for one agg row. -/
def bloqueDe (fs : List FilaPrep) (a : Agregado) : List FilaDir :=
  match coincidencias fs a with
  | [] => [{ cliente := a.cliente, ultimaFechaVenta := a.ultimaFechaVenta, dias := a.dias,
             estatus := a.estatus, fechaVentaFila := none, vendedor := none }]
  | ms => ms.map (fun f =>
      { cliente := a.cliente, ultimaFechaVenta := a.ultimaFechaVenta, dias := a.dias,
        estatus := a.estatus, fechaVentaFila := f.fechaVentaFila, vendedor := f.vendedor })

/-- The first merged row of one agg row, the one drop_duplicates keeps. -/
def cabezaBloque (fs : List FilaPrep) (a : Agregado) : FilaDir :=
  match coincidencias fs a with
  | [] => { cliente := a.cliente, ultimaFechaVenta := a.ultimaFechaVenta, dias := a.dias,
            estatus := a.estatus, fechaVentaFila := none, vendedor := none }
  | f :: _ => { cliente := a.cliente, ultimaFechaVenta := a.ultimaFechaVenta, dias := a.dias,
                estatus := a.estatus, fechaVentaFila := f.fechaVentaFila, vendedor := f.vendedor }

/-- Projection from a dir_df row to an output row (the column selection of
calcular_directorio). -/
def entradaDeFilaDir (d : FilaDir) : Entrada :=
  { cliente := d.cliente, estatus := d.estatus, dias := d.dias,
    ultimoVendedor := d.vendedor, ultimaFechaVenta := d.ultimaFechaVenta }

lemma mergeVendedor_eq_flatMap (agg : List Agregado) (fs : List FilaPrep) :
    mergeVendedor agg fs = agg.flatMap (bloqueDe fs) := rfl

lemma cabezaBloque_cliente (fs : List FilaPrep) (a : Agregado) :
    (cabezaBloque fs a).cliente = a.cliente := by
  unfold cabezaBloque
  cases coincidencias fs a <;> rfl

lemma cabezaBloque_estatus (fs : List FilaPrep) (a : Agregado) :
    (cabezaBloque fs a).estatus = a.estatus := by
  unfold cabezaBloque
  cases coincidencias fs a <;> rfl

lemma cabezaBloque_dias (fs : List FilaPrep) (a : Agregado) :
    (cabezaBloque fs a).dias = a.dias := by
  unfold cabezaBloque
  cases coincidencias fs a <;> rfl

lemma cabezaBloque_ultima (fs : List FilaPrep) (a : Agregado) :
    (cabezaBloque fs a).ultimaFechaVenta = a.ultimaFechaVenta := by
  unfold cabezaBloque
  cases coincidencias fs a <;> rfl

lemma cabezaBloque_vendedor (fs : List FilaPrep) (a : Agregado) :
    (cabezaBloque fs a).vendedor = (coincidencias fs a).head?.bind (fun f => f.vendedor) := by
  unfold cabezaBloque
  cases coincidencias fs a <;> rfl

lemma mem_bloqueDe_cliente (fs : List FilaPrep) (a : Agregado) :
    ∀ x ∈ bloqueDe fs a, x.cliente = a.cliente := by
  unfold bloqueDe
  cases coincidencias fs a with
  | nil => intro x hx; simp at hx; rw [hx]
  | cons f ms =>
    intro x hx
    obtain ⟨g, _, hg⟩ := List.mem_map.mp hx
    rw [← hg]

lemma bloqueDe_eq_cons (fs : List FilaPrep) (a : Agregado) :
    ∃ resto, bloqueDe fs a = cabezaBloque fs a :: resto ∧
      ∀ x ∈ resto, x.cliente = a.cliente := by
  unfold bloqueDe cabezaBloque
  cases coincidencias fs a with
  | nil => exact ⟨[], rfl, by simp⟩
  | cons f ms =>
    refine ⟨ms.map _, rfl, ?_⟩
    intro x hx
    obtain ⟨g, _, hg⟩ := List.mem_map.mp hx
    rw [← hg]

lemma pairwise_of_mem {α : Type} {R : α → α → Prop} :
    ∀ (l : List α), (∀ x ∈ l, ∀ y ∈ l, R x y) → l.Pairwise R
  | [], _ => List.Pairwise.nil
  | x :: xs, h =>
    List.Pairwise.cons (fun y hy => h x (by simp) y (by simp [hy]))
      (pairwise_of_mem xs (fun u hu v hv => h u (by simp [hu]) v (by simp [hv])))

lemma mem_coincidencias {fs : List FilaPrep} {a : Agregado} {f : FilaPrep}
    (h : f ∈ coincidencias fs a) :
    f ∈ fs ∧ f.cliente = some a.cliente ∧ f.fechaVentaFila = a.ultimaFechaVenta := by
  unfold coincidencias at h
  have hm := List.mem_filter.mp h
  refine ⟨hm.1, ?_, ?_⟩
  · have := (Bool.and_eq_true _ _).mp hm.2
    exact eq_of_beq this.1
  · have := (Bool.and_eq_true _ _).mp hm.2
    exact eq_of_beq this.2

lemma pairwise_bloqueDe (fs : List FilaPrep) (a : Agregado) :
    (bloqueDe fs a).Pairwise leJoin := by
  unfold bloqueDe
  cases hc : coincidencias fs a with
  | nil => simp
  | cons f ms =>
    refine pairwise_of_mem _ ?_
    intro x hx y hy
    obtain ⟨g1, hg1, he1⟩ := List.mem_map.mp hx
    obtain ⟨g2, hg2, he2⟩ := List.mem_map.mp hy
    have hf1 : g1.fechaVentaFila = a.ultimaFechaVenta :=
      (mem_coincidencias (by rw [hc]; exact hg1)).2.2
    have hf2 : g2.fechaVentaFila = a.ultimaFechaVenta :=
      (mem_coincidencias (by rw [hc]; exact hg2)).2.2
    unfold leJoin
    rw [leJoinB_iff]
    right
    rw [← he1, ← he2]
    show a.cliente = a.cliente ∧ leFechaDesc g1.fechaVentaFila g2.fechaVentaFila = true
    rw [hf1, hf2]
    exact ⟨rfl, leFechaDesc_refl _⟩

lemma pairwise_flatMap_bloques (fs : List FilaPrep) :
    ∀ (agg : List Agregado), (agg.map (fun a => a.cliente)).Pairwise ltC →
      (agg.flatMap (bloqueDe fs)).Pairwise leJoin := by
  intro agg
  induction agg with
  | nil => intro _; simp
  | cons a rest ih =>
    intro hp
    rw [List.map_cons, List.pairwise_cons] at hp
    rw [List.flatMap_cons, List.pairwise_append]
    refine ⟨pairwise_bloqueDe fs a, ih hp.2, ?_⟩
    intro x hx y hy
    obtain ⟨b, hb, hyb⟩ := List.mem_flatMap.mp hy
    have h1 : x.cliente = a.cliente := mem_bloqueDe_cliente fs a x hx
    have h2 : y.cliente = b.cliente := mem_bloqueDe_cliente fs b y hyb
    have h3 : ltC a.cliente b.cliente := hp.1 b.cliente (List.mem_map_of_mem _ hb)
    unfold leJoin
    rw [leJoinB_iff]
    left
    rw [h1, h2]
    exact h3

lemma dropDup_flatMap_bloques (fs : List FilaPrep) :
    ∀ (agg : List Agregado) (vistos : List String),
      (agg.map (fun a => a.cliente)).Nodup →
      (∀ a ∈ agg, vistos.contains a.cliente = false) →
      dropDupBy (fun d => d.cliente) (agg.flatMap (bloqueDe fs)) vistos =
        agg.map (cabezaBloque fs) := by
  intro agg
  induction agg with
  | nil => intro vistos _ _; rfl
  | cons a rest ih =>
    intro vistos hnodup hv
    rw [List.map_cons] at hnodup
    rw [List.nodup_cons] at hnodup
    obtain ⟨resto, hb, hresto⟩ := bloqueDe_eq_cons fs a
    rw [List.flatMap_cons, hb, List.cons_append]
    simp only [dropDupBy]
    rw [cabezaBloque_cliente, hv a (by simp)]
    simp only [Bool.false_eq_true, if_false]
    rw [List.map_cons]
    congr 1
    rw [dropDupBy_append_seen _ resto _ _ ?_]
    · rw [dropDupBy_congr_vistos (fun d : FilaDir => d.cliente) _ (a.cliente :: vistos) vistos ?_]
      · exact ih vistos hnodup.2 (fun b hb2 => hv b (List.mem_cons_of_mem _ hb2))
      · intro x hx
        obtain ⟨b, hb2, hxb⟩ := List.mem_flatMap.mp hx
        have hxc : x.cliente = b.cliente := mem_bloqueDe_cliente fs b x hxb
        have hne : b.cliente ≠ a.cliente := by
          intro he
          exact hnodup.1 (he ▸ List.mem_map_of_mem _ hb2)
        rw [contains_cons_eq]
        have hbeq : (x.cliente == a.cliente) = false := by
          rw [hxc]
          exact beq_eq_false_iff_ne.mpr hne
        rw [hbeq]
        simp
    · intro x hx
      rw [contains_cons_eq, hresto x hx]
      simp

lemma map_cliente_agg (hoy : Int) (df : List FilaPrep) :
    ((clavesOrdenadas df).map (agregadoDe hoy df)).map (fun a => a.cliente) =
      clavesOrdenadas df := by
  rw [List.map_map]
  exact List.map_id _

lemma directorioSinOrden_eq (hoy : Int) (fs : List FilaPrep) :
    directorioSinOrden hoy fs =
      (clavesOrdenadas (filasValidas fs)).map (fun k =>
        entradaDeFilaDir (cabezaBloque (filasValidas fs) (agregadoDe hoy (filasValidas fs) k))) := by
  show (dropDupBy (fun d => d.cliente)
      (List.insertionSort leJoin
        (mergeVendedor ((clavesOrdenadas (filasValidas fs)).map (agregadoDe hoy (filasValidas fs)))
          (filasValidas fs))) []).map entradaDeFilaDir =
    (clavesOrdenadas (filasValidas fs)).map (fun k =>
      entradaDeFilaDir (cabezaBloque (filasValidas fs) (agregadoDe hoy (filasValidas fs) k)))
  rw [mergeVendedor_eq_flatMap]
  rw [List.Sorted.insertionSort_eq (pairwise_flatMap_bloques (filasValidas fs) _
    (by rw [map_cliente_agg]; exact pairwise_clavesOrdenadas _))]
  rw [dropDup_flatMap_bloques (filasValidas fs) _ []
    (by rw [map_cliente_agg]; exact nodup_clavesOrdenadas _)
    (fun a _ => rfl)]
  rw [List.map_map, List.map_map]
  rfl

lemma mem_calcular_directorio_iff (hoy : Int) (fs : List FilaPrep) (e : Entrada) :
    e ∈ calcular_directorio hoy fs ↔ ∃ k ∈ clavesOrdenadas (filasValidas fs),
      e = entradaDeFilaDir (cabezaBloque (filasValidas fs) (agregadoDe hoy (filasValidas fs) k)) := by
  unfold calcular_directorio
  rw [List.Perm.mem_iff (List.perm_insertionSort leFinal _)]
  rw [directorioSinOrden_eq]
  rw [List.mem_map]
  constructor
  · rintro ⟨k, hk, he⟩
    exact ⟨k, hk, he.symm⟩
  · rintro ⟨k, hk, he⟩
    exact ⟨k, hk, he.symm⟩

lemma map_cliente_calcular (hoy : Int) (fs : List FilaPrep) :
    ((calcular_directorio hoy fs).map (fun e => e.cliente)).Perm
      (clavesOrdenadas (filasValidas fs)) := by
  unfold calcular_directorio
  refine ((List.perm_insertionSort leFinal _).map _).trans ?_
  rw [directorioSinOrden_eq, List.map_map]
  have : ((clavesOrdenadas (filasValidas fs)).map
      ((fun e => e.cliente) ∘ (fun k => entradaDeFilaDir (cabezaBloque (filasValidas fs)
        (agregadoDe hoy (filasValidas fs) k))))) = clavesOrdenadas (filasValidas fs) := by
    have h2 : ∀ k ∈ clavesOrdenadas (filasValidas fs),
        ((fun e => e.cliente) ∘ (fun k => entradaDeFilaDir (cabezaBloque (filasValidas fs)
          (agregadoDe hoy (filasValidas fs) k)))) k = id k := by
      intro k _
      simp only [Function.comp, id]
      unfold entradaDeFilaDir
      rw [cabezaBloque_cliente]
      rfl
    rw [List.map_congr_left h2, List.map_id]
  rw [this]

lemma mem_grupoDe {df : List FilaPrep} {k : String} {f : FilaPrep}
    (hf : f ∈ df) (hc : f.cliente = some k) : f ∈ grupoDe df k := by
  unfold grupoDe
  rw [List.mem_filter]
  exact ⟨hf, by rw [hc]; simp⟩

lemma coincidencias_ne_nil (hoy : Int) (df : List FilaPrep) (k : String)
    (h : ∃ f ∈ df, f.cliente = some k) :
    coincidencias df (agregadoDe hoy df k) ≠ [] := by
  obtain ⟨f0, hf0, hc0⟩ := h
  cases hu : ultimaFechaDe df k with
  | none =>
    have hnone : f0.fechaVentaFila = none := by
      unfold ultimaFechaDe at hu
      exact (maxFila_eq_none_iff _).mp hu f0.fechaVentaFila
        (List.mem_map_of_mem _ (mem_grupoDe hf0 hc0))
    intro hnil
    have hmem : f0 ∈ coincidencias df (agregadoDe hoy df k) := by
      unfold coincidencias
      rw [List.mem_filter]
      refine ⟨hf0, ?_⟩
      rw [Bool.and_eq_true]
      constructor
      · show (f0.cliente == some k) = true
        rw [hc0]; simp
      · show (f0.fechaVentaFila == ultimaFechaDe df k) = true
        rw [hnone, hu]; simp
    rw [hnil] at hmem
    simp at hmem
  | some d =>
    have hmem0 : some d ∈ (grupoDe df k).map (fun f => f.fechaVentaFila) := by
      unfold ultimaFechaDe at hu
      exact maxFila_mem hu
    obtain ⟨g, hg, hgf⟩ := List.mem_map.mp hmem0
    intro hnil
    have hmem : g ∈ coincidencias df (agregadoDe hoy df k) := by
      unfold coincidencias
      rw [List.mem_filter]
      refine ⟨(List.mem_filter.mp hg).1, ?_⟩
      rw [Bool.and_eq_true]
      constructor
      · exact (List.mem_filter.mp hg).2
      · show (g.fechaVentaFila == ultimaFechaDe df k) = true
        rw [hgf, hu]
        simp
    rw [hnil] at hmem
    simp at hmem

lemma vendedor_de_entrada (hoy : Int) (df : List FilaPrep) (k : String)
    (hk : ∃ f ∈ df, f.cliente = some k) :
    ∃ f, (coincidencias df (agregadoDe hoy df k)).head? = some f ∧
      f ∈ df ∧ f.cliente = some k ∧ f.fechaVentaFila = ultimaFechaDe df k ∧
      (entradaDeFilaDir (cabezaBloque df (agregadoDe hoy df k))).ultimoVendedor = f.vendedor := by
  have hne := coincidencias_ne_nil hoy df k hk
  cases hc : coincidencias df (agregadoDe hoy df k) with
  | nil => exact absurd hc hne
  | cons f ms =>
    have hf : f ∈ coincidencias df (agregadoDe hoy df k) := by rw [hc]; simp
    have hdat := mem_coincidencias hf
    refine ⟨f, rfl, hdat.1, hdat.2.1, hdat.2.2, ?_⟩
    show (cabezaBloque df (agregadoDe hoy df k)).vendedor = f.vendedor
    rw [cabezaBloque_vendedor, hc]
    rfl

lemma mem_filasValidas {fs : List FilaPrep} {g : FilaPrep} (h : g ∈ filasValidas fs) :
    ∃ f ∈ fs, ∃ s, f.cliente = some s ∧ g.cliente = some (stripCadena s) ∧
      g.vendedor = f.vendedor ∧ g.fechaVentaFila = f.fechaVentaFila := by
  unfold filasValidas at h
  obtain ⟨f, hf, hfg⟩ := List.mem_map.mp h
  have hff := List.mem_filter.mp hf
  obtain ⟨s, hs⟩ := Option.isSome_iff_exists.mp hff.2
  refine ⟨f, hff.1, s, hs, ?_, ?_, ?_⟩
  · rw [← hfg]
    show f.cliente.map stripCadena = some (stripCadena s)
    rw [hs]
    rfl
  · rw [← hfg]
  · rw [← hfg]

lemma ultimaFecha_es_max {df : List FilaPrep} {k : String} {f : FilaPrep}
    (hf : f ∈ df) (hc : f.cliente = some k) {d : Nat} (hd : f.fechaVentaFila = some d) :
    ∃ m, ultimaFechaDe df k = some m ∧ d ≤ m := by
  cases hu : ultimaFechaDe df k with
  | none =>
    have hall : f.fechaVentaFila = none := by
      unfold ultimaFechaDe at hu
      exact (maxFila_eq_none_iff _).mp hu f.fechaVentaFila
        (List.mem_map_of_mem _ (mem_grupoDe hf hc))
    rw [hd] at hall
    exact absurd hall (by simp)
  | some m =>
    refine ⟨m, rfl, ?_⟩
    unfold ultimaFechaDe at hu
    exact maxFila_ge hu f.fechaVentaFila (List.mem_map_of_mem _ (mem_grupoDe hf hc)) d hd

lemma campos_entrada (hoy : Int) (df : List FilaPrep) (k : String) :
    (entradaDeFilaDir (cabezaBloque df (agregadoDe hoy df k))).estatus =
        estatusDe hoy (ultimaFechaDe df k) ∧
    (entradaDeFilaDir (cabezaBloque df (agregadoDe hoy df k))).dias =
        diasDesde hoy (ultimaFechaDe df k) ∧
    (entradaDeFilaDir (cabezaBloque df (agregadoDe hoy df k))).ultimaFechaVenta =
        ultimaFechaDe df k ∧
    (entradaDeFilaDir (cabezaBloque df (agregadoDe hoy df k))).cliente = k := by
  refine ⟨?_, ?_, ?_, ?_⟩
  · exact cabezaBloque_estatus df _
  · exact cabezaBloque_dias df _
  · exact cabezaBloque_ultima df _
  · exact cabezaBloque_cliente df _

/-! ### Claim C1 -/

/-- C1: for every directory entry, the status is Disponible (Available) exactly
when the last sale date is missing or the days since the last sale are at least
the threshold of 90, and En uso (InUse) exactly when the days since the last
sale are below 90; the days are missing exactly when the last sale date is. -/
theorem C1_estatus_umbral (hoy : Int) (fs : List FilaPrep) (e : Entrada)
    (h : e ∈ calcular_directorio hoy fs) :
    (e.estatus = "Disponible" ↔
      (e.ultimaFechaVenta = none ∨ ∃ d, e.dias = some d ∧ DIAS_EN_USO ≤ d)) ∧
    (e.estatus = "En uso" ↔ ∃ d, e.dias = some d ∧ d < DIAS_EN_USO) ∧
    (e.dias = none ↔ e.ultimaFechaVenta = none) := by
  obtain ⟨k, _, he⟩ := (mem_calcular_directorio_iff hoy fs e).mp h
  obtain ⟨h1, h2, h3, _⟩ := campos_entrada hoy (filasValidas fs) k
  subst he
  rw [h1, h2, h3]
  cases ultimaFechaDe (filasValidas fs) k with
  | none => simp [estatusDe, diasDesde]
  | some f =>
    simp only [estatusDe, diasDesde]
    by_cases hlt : hoy - (f : Int) < DIAS_EN_USO
    · rw [if_pos hlt]
      refine ⟨⟨fun hs => absurd hs (by decide), ?_⟩, ⟨fun _ => ⟨hoy - (f : Int), rfl, hlt⟩,
        fun _ => rfl⟩, by simp⟩
      rintro (hn | ⟨d, hd, hge⟩)
      · exact absurd hn (by simp)
      · rw [Option.some_inj] at hd
        rw [← hd] at hge
        exact absurd hlt (not_lt.mpr hge)
    · rw [if_neg hlt]
      refine ⟨⟨fun _ => Or.inr ⟨hoy - (f : Int), rfl, not_lt.mp hlt⟩, fun _ => rfl⟩,
        ⟨fun hs => absurd hs (by decide), ?_⟩, by simp⟩
      rintro ⟨d, hd, hdl⟩
      rw [Option.some_inj] at hd
      rw [← hd] at hdl
      exact absurd hdl hlt

def filaEjemplo : FilaPrep :=
  { cliente := some " a ", vendedor := some "V", fechaVentaFila := some 10 }

def entradaEjemplo : Entrada :=
  { cliente := "a", estatus := "Disponible", dias := some 90, ultimoVendedor := some "V",
    ultimaFechaVenta := some 10 }

/-- Witness for C1: a concrete run whose single entry sits exactly on the
90-day boundary and is classified Disponible. -/
theorem C1_estatus_umbral_witness :
    (entradaEjemplo.estatus = "Disponible" ↔
      (entradaEjemplo.ultimaFechaVenta = none ∨
        ∃ d, entradaEjemplo.dias = some d ∧ DIAS_EN_USO ≤ d)) ∧
    (entradaEjemplo.estatus = "En uso" ↔ ∃ d, entradaEjemplo.dias = some d ∧ d < DIAS_EN_USO) ∧
    (entradaEjemplo.dias = none ↔ entradaEjemplo.ultimaFechaVenta = none) :=
  C1_estatus_umbral 100 [filaEjemplo] entradaEjemplo (by decide)

/-! ### Claim C2 -/

/-- C2 counterexample: a transaction whose client id is whitespace-only passes
the notna filter, is stripped to the empty string, and yields an output entry
whose client id is empty, refuting the non-empty part of the claim. -/
theorem C2_contraejemplo :
    ∃ e ∈ calcular_directorio 100
      [{ cliente := some "  ", vendedor := some "V", fechaVentaFila := some 10 }],
      e.cliente = "" := by decide

/-- C2 amended: every output client id is unique and is the whitespace-trimmed
form of some non-missing source id (possibly empty, when the source id is
whitespace-only), and each entry's last sale date is the maximum effective
date over all of that customer's rows, its days-since value being computed
from that maximum. -/
theorem C2_unicidad (hoy : Int) (fs : List FilaPrep) :
    ((calcular_directorio hoy fs).map (fun e => e.cliente)).Nodup ∧
    (∀ e ∈ calcular_directorio hoy fs, ∃ f ∈ fs, ∃ s, f.cliente = some s ∧
      e.cliente = stripCadena s) ∧
    (∀ e ∈ calcular_directorio hoy fs,
      e.ultimaFechaVenta = ultimaFechaDe (filasValidas fs) e.cliente ∧
      e.dias = diasDesde hoy e.ultimaFechaVenta ∧
      ∀ f ∈ filasValidas fs, f.cliente = some e.cliente →
        ∀ d, f.fechaVentaFila = some d → ∃ m, e.ultimaFechaVenta = some m ∧ d ≤ m) := by
  refine ⟨?_, ?_, ?_⟩
  · exact (map_cliente_calcular hoy fs).nodup_iff.mpr (nodup_clavesOrdenadas _)
  · intro e he
    obtain ⟨k, hk, heq⟩ := (mem_calcular_directorio_iff hoy fs e).mp he
    obtain ⟨g, hg, hgc⟩ := (mem_clavesOrdenadas _ k).mp hk
    obtain ⟨f, hf, s, hs, hgc2, _, _⟩ := mem_filasValidas hg
    refine ⟨f, hf, s, hs, ?_⟩
    have hcli : e.cliente = k := by
      rw [heq]; exact (campos_entrada hoy _ k).2.2.2
    rw [hcli]
    rw [hgc] at hgc2
    exact Option.some_inj.mp hgc2
  · intro e he
    obtain ⟨k, hk, heq⟩ := (mem_calcular_directorio_iff hoy fs e).mp he
    obtain ⟨_, h2, h3, h4⟩ := campos_entrada hoy (filasValidas fs) k
    have hcli : e.cliente = k := by rw [heq]; exact h4
    have hu : e.ultimaFechaVenta = ultimaFechaDe (filasValidas fs) k := by
      rw [heq]; exact h3
    refine ⟨by rw [hcli]; exact hu, ?_, ?_⟩
    · rw [heq, h2, h3]
    · intro f hf hfc d hd
      rw [hcli] at hfc
      obtain ⟨m, hm, hdm⟩ := ultimaFecha_es_max hf hfc hd
      exact ⟨m, by rw [hu, hm], hdm⟩

/-- Witness for C2 amended: the concrete entry of a one-row run is the trimmed
form of its source id. -/
theorem C2_unicidad_witness :
    ∃ f ∈ [filaEjemplo], ∃ s, f.cliente = some s ∧ entradaEjemplo.cliente = stripCadena s :=
  (C2_unicidad 100 [filaEjemplo]).2.1 entradaEjemplo (by decide)

/-! ### Claim C4 -/

/-- C4: every directory entry's UltimoVendedor is the vendor field of a
prepared row of that customer whose effective date equals the customer's last
sale date, chosen deterministically as the first matching row of the merge. -/
theorem C4_ultimo_vendedor (hoy : Int) (fs : List FilaPrep) (e : Entrada)
    (h : e ∈ calcular_directorio hoy fs) :
    ∃ f, (coincidencias (filasValidas fs)
        (agregadoDe hoy (filasValidas fs) e.cliente)).head? = some f ∧
      f ∈ filasValidas fs ∧ f.cliente = some e.cliente ∧
      f.fechaVentaFila = e.ultimaFechaVenta ∧ e.ultimoVendedor = f.vendedor := by
  obtain ⟨k, hk, heq⟩ := (mem_calcular_directorio_iff hoy fs e).mp h
  have hcli : e.cliente = k := by
    rw [heq]; exact (campos_entrada hoy _ k).2.2.2
  obtain ⟨f, hhead, hfdf, hfc, hff, hv⟩ := vendedor_de_entrada hoy (filasValidas fs) k
    ((mem_clavesOrdenadas _ k).mp hk)
  refine ⟨f, ?_, hfdf, ?_, ?_, ?_⟩
  · rw [hcli]; exact hhead
  · rw [hcli]; exact hfc
  · rw [heq, (campos_entrada hoy _ k).2.2.1]; exact hff
  · rw [heq]; exact hv

/-- Witness for C4 at a concrete one-customer run. -/
theorem C4_ultimo_vendedor_witness :
    ∃ f, (coincidencias (filasValidas [filaEjemplo])
        (agregadoDe 100 (filasValidas [filaEjemplo]) entradaEjemplo.cliente)).head? = some f ∧
      f ∈ filasValidas [filaEjemplo] ∧ f.cliente = some entradaEjemplo.cliente ∧
      f.fechaVentaFila = entradaEjemplo.ultimaFechaVenta ∧
      entradaEjemplo.ultimoVendedor = f.vendedor :=
  C4_ultimo_vendedor 100 [filaEjemplo] entradaEjemplo (by decide)

/-! ### Claim C10 -/

/-- C10: a customer all of whose rows lack a parseable date still receives an
UltimoVendedor: the merge matches the missing last sale date against rows
with a missing effective date, so the entry carries the vendor of one of the
customer's own rows instead of being left missing. -/
theorem C10_vendedor_fecha_faltante (hoy : Int) (fs : List FilaPrep) (e : Entrada)
    (h : e ∈ calcular_directorio hoy fs) (hn : e.ultimaFechaVenta = none) :
    ∃ f ∈ filasValidas fs, f.cliente = some e.cliente ∧ f.fechaVentaFila = none ∧
      e.ultimoVendedor = f.vendedor := by
  obtain ⟨k, hk, heq⟩ := (mem_calcular_directorio_iff hoy fs e).mp h
  have hcli : e.cliente = k := by
    rw [heq]; exact (campos_entrada hoy _ k).2.2.2
  obtain ⟨f, hhead, hfdf, hfc, hff, hv⟩ := vendedor_de_entrada hoy (filasValidas fs) k
    ((mem_clavesOrdenadas _ k).mp hk)
  have hun : ultimaFechaDe (filasValidas fs) k = none := by
    rw [heq, (campos_entrada hoy _ k).2.2.1] at hn
    exact hn
  refine ⟨f, hfdf, by rw [hcli]; exact hfc, by rw [hff, hun], ?_⟩
  rw [heq]
  exact hv

def filaSinFecha : FilaPrep :=
  { cliente := some "b", vendedor := some "L", fechaVentaFila := none }

def entradaSinFecha : Entrada :=
  { cliente := "b", estatus := "Disponible", dias := none, ultimoVendedor := some "L",
    ultimaFechaVenta := none }

/-- Witness for C10: a dateless customer still gets its vendor attributed. -/
theorem C10_vendedor_fecha_faltante_witness :
    ∃ f ∈ filasValidas [filaSinFecha], f.cliente = some entradaSinFecha.cliente ∧
      f.fechaVentaFila = none ∧ entradaSinFecha.ultimoVendedor = f.vendedor :=
  C10_vendedor_fecha_faltante 100 [filaSinFecha] entradaSinFecha (by decide) (by decide)

/-! ### Claim C3 -/

lemma columnasExistentes_nil_iff (df : TablaVentas) :
    columnasExistentes df = [] ↔ ∀ c ∈ FECHAS_COLS, c ∉ df.columnas := by
  unfold columnasExistentes
  rw [List.filter_eq_nil_iff]
  constructor
  · intro h c hc hmem
    exact h c hc (List.elem_iff.mpr hmem)
  · intro h c hc hcont
    exact h c hc (List.elem_iff.mp hcont)

/-- C3: the preparation step fails exactly when none of the configured
candidate date columns exists in the schema; otherwise it keeps every row and
derives each row's effective date as the maximum of that row's successfully
parsed candidate values, missing exactly when every candidate cell of the row
parses to missing — so an unparseable individual value never aborts the run. -/
theorem C3_preparar_ventas (df : TablaVentas) :
    ((∃ e, preparar_ventas df = Except.error e) ↔ ∀ c ∈ FECHAS_COLS, c ∉ df.columnas) ∧
    (∀ filas, preparar_ventas df = Except.ok filas →
      filas.length = df.filas.length ∧
      ∀ i (hi : i < filas.length) (hj : i < df.filas.length),
        ((filas.get ⟨i, hi⟩).fechaVentaFila = none ↔
          ∀ c ∈ columnasExistentes df, toDatetime (celdaDe (df.filas.get ⟨i, hj⟩) c) = none) ∧
        (∀ d, (filas.get ⟨i, hi⟩).fechaVentaFila = some d →
          (∃ c ∈ columnasExistentes df, toDatetime (celdaDe (df.filas.get ⟨i, hj⟩) c) = some d) ∧
          ∀ c ∈ columnasExistentes df, ∀ y,
            toDatetime (celdaDe (df.filas.get ⟨i, hj⟩) c) = some y → y ≤ d)) := by
  constructor
  · unfold preparar_ventas
    by_cases hvac : (columnasExistentes df).isEmpty
    · simp only [hvac, if_true]
      rw [← columnasExistentes_nil_iff]
      simp [List.isEmpty_iff.mp hvac]
    · simp only [hvac, Bool.false_eq_true, if_false]
      rw [← columnasExistentes_nil_iff]
      constructor
      · rintro ⟨e, he⟩
        exact absurd he (by simp)
      · intro hnil
        rw [List.isEmpty_iff] at hvac
        exact absurd hnil hvac
  · intro filas hok
    unfold preparar_ventas at hok
    by_cases hvac : (columnasExistentes df).isEmpty
    · simp [hvac] at hok
    · simp only [hvac, Bool.false_eq_true, if_false, Except.ok.injEq] at hok
      subst hok
      refine ⟨List.length_map _ _, ?_⟩
      intro i hi hj
      have hget : ((df.filas.map (fun f =>
          ({ cliente := f.cliente, vendedor := f.vendedor,
             fechaVentaFila := maxFila ((columnasExistentes df).map
               (fun c => toDatetime (celdaDe f c))) } : FilaPrep))).get ⟨i, hi⟩) =
          { cliente := (df.filas.get ⟨i, hj⟩).cliente,
            vendedor := (df.filas.get ⟨i, hj⟩).vendedor,
            fechaVentaFila := maxFila ((columnasExistentes df).map
              (fun c => toDatetime (celdaDe (df.filas.get ⟨i, hj⟩) c))) } := by
        rw [List.get_eq_getElem, List.getElem_map]
        rfl
      rw [hget]
      constructor
      · show maxFila _ = none ↔ _
        rw [maxFila_eq_none_iff]
        constructor
        · intro hall c hc
          exact hall _ (List.mem_map_of_mem _ hc)
        · intro hall x hx
          obtain ⟨c, hc, hcx⟩ := List.mem_map.mp hx
          rw [← hcx]
          exact hall c hc
      · intro d hd
        have hd2 : maxFila ((columnasExistentes df).map
            (fun c => toDatetime (celdaDe (df.filas.get ⟨i, hj⟩) c))) = some d := hd
        constructor
        · obtain ⟨c, hc, hcd⟩ := List.mem_map.mp (maxFila_mem hd2)
          exact ⟨c, hc, hcd⟩
        · intro c hc y hy
          exact maxFila_ge hd2 _ (List.mem_map_of_mem _ hc) y hy

def dfEjemplo : TablaVentas :=
  { columnas := ["Fechadepedido", "FechadePago", "Cliente"],
    filas := [{ cliente := some "a", vendedor := none,
                celdas := [("Fechadepedido", Celda.texto "no es fecha"),
                           ("FechadePago", Celda.fecha 7)] }] }

/-- Witness for C3: a row with one unparseable and one parseable candidate
cell is kept, and its effective date is the parsed maximum 7. -/
theorem C3_preparar_ventas_witness :
    ∃ c ∈ columnasExistentes dfEjemplo,
      toDatetime (celdaDe (dfEjemplo.filas.get ⟨0, by decide⟩) c) = some 7 :=
  ((((C3_preparar_ventas dfEjemplo).2
      [{ cliente := some "a", vendedor := none, fechaVentaFila := some 7 }] (by decide)).2
      0 (by decide) (by decide)).2 7 (by decide)).1

/-! ### Claim C5 -/

def filaHojaEjemplo : FilaHoja :=
  { colA := some "ciudadA", colB := some "correoB", colC := some " llaveC ",
    colD := some "paisD", colE := some "provE", colF := some "telF" }

/-- C5: the loaded catalog does not bind the positions as CAT_MAP specifies.
pandas returns a usecols selection in document order, so the positional
renaming binds column A to the identity key, B to the city and C to the
email, while CAT_MAP (and the spec) demand C to identity, A to city and B to
email; columns D, E, F agree.  Evaluating the loader on a row of six distinct
cells shows the key taking the value of column A instead of column C. -/
theorem C5_asignacion_posicional :
    asignacionColumnas = [("A", CAT_LLAVE), ("B", CAT_CIUDAD), ("C", CAT_EMAIL),
      ("D", CAT_PAIS), ("E", CAT_PROV), ("F", CAT_TEL)] ∧
    campoHoja filaHojaEjemplo CAT_LLAVE = filaHojaEjemplo.colA ∧
    cargar_catalogo_mismo_excel (Except.ok [filaHojaEjemplo]) =
      some [{ cliente := some "ciudadA", ciudad := some "correoB", correo := some " llaveC ",
              pais := some "paisD", provincia := some "provE", telefono := some "telF" }] := by
  exact ⟨rfl, rfl, by decide⟩

/-! ### Claim C6 -/

def filaCatX1 : FilaCat :=
  { cliente := some "X", ciudad := some "ciudad1", correo := none, pais := none,
    provincia := none, telefono := none }

def filaCatX2 : FilaCat :=
  { cliente := some "X", ciudad := some "ciudad2", correo := none, pais := none,
    provincia := none, telefono := none }

/-- C6 counterexample: the external local catalog loader keeps both rows of a
duplicated key with differing contact data, so the claimed first-occurrence
deduplication does not hold for every catalog source. -/
theorem C6_contraejemplo :
    cargar_catalogo_local true
        (Except.ok { tieneLlave := true, filas := [filaCatX1, filaCatX2] }) =
      Except.ok (some [filaCatX1, filaCatX2]) ∧
    ¬ (([filaCatX1, filaCatX2].map (fun f => f.cliente)).Nodup) := by
  exact ⟨by decide, by decide⟩

/-- C6 amended: the same-workbook loader trims the key, drops rows with a
missing key and keeps exactly the first row of each duplicated key, while the
external loaders only trim the key and keep every row, duplicates and missing
keys included. -/
theorem C6_normalizacion (filas : List FilaHoja) (cat : List FilaCat)
    (h : cargar_catalogo_mismo_excel (Except.ok filas) = some cat) :
    (∀ f ∈ cat, f.cliente.isSome) ∧
    ((cat.map (fun f => f.cliente)).Nodup) ∧
    (∀ f ∈ cat, ((filas.map (fun r => stripLlave (filaCatDeHoja r))).filter
        (fun g => g.cliente == f.cliente)).head? = some f) ∧
    (∀ (t : TablaCatExt), t.tieneLlave = true →
      cargar_catalogo_local true (Except.ok t) = Except.ok (some (t.filas.map stripLlave)) ∧
      (t.filas.map stripLlave).length = t.filas.length) ∧
    (∀ (idArchivo : String) (t : TablaCatExt), t.tieneLlave = true →
      cargar_catalogo_drive (some idArchivo) (Except.ok t) =
        Except.ok (some (t.filas.map stripLlave)) ∧
      (t.filas.map stripLlave).length = t.filas.length) := by
  unfold cargar_catalogo_mismo_excel at h
  simp only [Option.some_inj] at h
  subst h
  rw [List.map_map] at *
  refine ⟨?_, ?_, ?_, ?_, ?_⟩
  · intro f hf
    have h1 := mem_dropDupBy _ _ _ _ hf
    exact (List.mem_filter.mp h1).2
  · exact nodup_keys_dropDupBy _ _ _
  · intro f hf
    have hhead := head_filter_dropDupBy (fun g : FilaCat => g.cliente) _ _ f hf
    have hsome : f.cliente.isSome := by
      have h1 := mem_dropDupBy _ _ _ _ hf
      exact (List.mem_filter.mp h1).2
    rw [List.filter_filter] at hhead
    rw [← hhead]
    apply congrArg
    apply List.filter_congr
    intro g _
    cases hgc : g.cliente == f.cliente
    · rfl
    · have hgf : g.cliente = f.cliente := eq_of_beq hgc
      simp [hgf, hsome]
  · intro t ht
    refine ⟨?_, List.length_map _ _⟩
    simp [cargar_catalogo_local, ht]
  · intro idArchivo t ht
    refine ⟨?_, List.length_map _ _⟩
    simp [cargar_catalogo_drive, ht]

def hojaDup1 : FilaHoja :=
  { colA := some " X ", colB := some "ciudad1", colC := none, colD := none,
    colE := none, colF := none }

def hojaDup2 : FilaHoja :=
  { colA := some "X", colB := some "ciudad2", colC := none, colD := none,
    colE := none, colF := none }

def filaCatEjemplo : FilaCat :=
  { cliente := some "X", ciudad := some "ciudad1", correo := none, pais := none,
    provincia := none, telefono := none }

/-- Witness for C6 amended: two same-key sheet rows collapse to the first one
in trimmed form. -/
theorem C6_normalizacion_witness :
    (([hojaDup1, hojaDup2].map (fun r => stripLlave (filaCatDeHoja r))).filter
      (fun g => g.cliente == filaCatEjemplo.cliente)).head? = some filaCatEjemplo :=
  (C6_normalizacion [hojaDup1, hojaDup2] [filaCatEjemplo] (by decide)).2.2.1
    filaCatEjemplo (by decide)

/-! ### Claim C7 -/

def entradaX : Entrada :=
  { cliente := "X", estatus := "Disponible", dias := none, ultimoVendedor := none,
    ultimaFechaVenta := none }

/-- C7 counterexample: joining a one-row directory against a catalog holding
two rows with the same key multiplies the directory row into two output rows,
so the join is not one-to-one for every catalog. -/
theorem C7_contraejemplo :
    ([entradaX].length = 1) ∧
    (merge_catalogo [entradaX] (some [filaCatX1, filaCatX2])).filas.length = 2 := by
  exact ⟨rfl, by decide⟩

lemma filter_clave_len_le_one {cat : List FilaCat}
    (h : (cat.map (fun f => f.cliente)).Nodup) (v : Option String) :
    (cat.filter (fun f => f.cliente == v)).length ≤ 1 := by
  induction cat with
  | nil => simp
  | cons c cs ih =>
    rw [List.map_cons, List.nodup_cons] at h
    rw [List.filter_cons]
    cases hc : c.cliente == v with
    | false =>
      simp only [Bool.false_eq_true, if_false]
      exact ih h.2
    | true =>
      simp only [if_true]
      have hnil : cs.filter (fun f => f.cliente == v) = [] := by
        rw [List.filter_eq_nil_iff]
        intro g hg hgv
        have h1 : g.cliente = v := eq_of_beq hgv
        have h2 : c.cliente = v := eq_of_beq hc
        exact h.1 (by rw [h2, ← h1]; exact List.mem_map_of_mem _ hg)
      rw [hnil]
      simp

/-- The rows the left merge of merge_catalogo produces for one directory
row. -/
def bloqueMerge (cat : List FilaCat) (e : Entrada) : List EntradaFinal :=
  match cat.filter (fun f => f.cliente == some e.cliente) with
  | [] => [conCatalogo e filaCatVacia]
  | ms => ms.map (conCatalogo e)

lemma merge_catalogo_some_filas (dir : List Entrada) (cat : List FilaCat) :
    (merge_catalogo dir (some cat)).filas = dir.flatMap (bloqueMerge cat) := rfl

lemma bloqueMerge_ne_nil (cat : List FilaCat) (e : Entrada) : bloqueMerge cat e ≠ [] := by
  unfold bloqueMerge
  cases cat.filter (fun f => f.cliente == some e.cliente) <;> simp

lemma mem_bloqueMerge_campos (cat : List FilaCat) (e : Entrada) :
    ∀ r ∈ bloqueMerge cat e,
      r.cliente = e.cliente ∧ r.estatus = e.estatus ∧ r.dias = e.dias ∧
      r.ultimoVendedor = e.ultimoVendedor ∧ r.ultimaFechaVenta = e.ultimaFechaVenta := by
  unfold bloqueMerge
  cases cat.filter (fun f => f.cliente == some e.cliente) with
  | nil =>
    intro r hr
    rw [List.mem_singleton] at hr
    rw [hr]
    exact ⟨rfl, rfl, rfl, rfl, rfl⟩
  | cons f ms =>
    intro r hr
    obtain ⟨g, _, hg⟩ := List.mem_map.mp hr
    rw [← hg]
    exact ⟨rfl, rfl, rfl, rfl, rfl⟩

lemma bloqueMerge_len_one {cat : List FilaCat}
    (h : (cat.map (fun f => f.cliente)).Nodup) (e : Entrada) :
    (bloqueMerge cat e).length = 1 := by
  unfold bloqueMerge
  cases hm : cat.filter (fun f => f.cliente == some e.cliente) with
  | nil => rfl
  | cons f ms =>
    have hle := filter_clave_len_le_one h (some e.cliente)
    rw [hm] at hle
    simp only [List.length_cons] at hle
    have hms : ms.length = 0 := by omega
    simp [hms]

/-- C7 amended: enrichment is a left join: an absent catalog returns the base
directory unchanged, every directory row is retained in the output with its
data, and no directory row is multiplied provided the catalog keys are
duplicate-free — which the same-workbook loader guarantees but the external
loaders do not. -/
theorem C7_left_join (dir : List Entrada) (cat : List FilaCat) :
    (merge_catalogo dir none).filas = dir.map sinCatalogo ∧
    (merge_catalogo dir none).columnas = COLS_DIR ∧
    (∀ e ∈ dir, ∃ r ∈ (merge_catalogo dir (some cat)).filas,
      r.cliente = e.cliente ∧ r.estatus = e.estatus ∧ r.dias = e.dias ∧
      r.ultimoVendedor = e.ultimoVendedor ∧ r.ultimaFechaVenta = e.ultimaFechaVenta) ∧
    ((cat.map (fun f => f.cliente)).Nodup →
      (merge_catalogo dir (some cat)).filas.length = dir.length) := by
  refine ⟨rfl, rfl, ?_, ?_⟩
  · intro e he
    rw [merge_catalogo_some_filas]
    cases hb : bloqueMerge cat e with
    | nil => exact absurd hb (bloqueMerge_ne_nil cat e)
    | cons r resto =>
      refine ⟨r, List.mem_flatMap.mpr ⟨e, he, by rw [hb]; simp⟩, ?_⟩
      exact mem_bloqueMerge_campos cat e r (by rw [hb]; simp)
  · intro hnodup
    rw [merge_catalogo_some_filas]
    induction dir with
    | nil => rfl
    | cons e dir ih =>
      rw [List.flatMap_cons, List.length_append, ih, List.length_cons,
        bloqueMerge_len_one hnodup]
      omega

/-- Witness for C7 amended at a concrete one-row directory and deduplicated
catalog. -/
theorem C7_left_join_witness :
    (∃ r ∈ (merge_catalogo [entradaX] (some [filaCatX1])).filas,
      r.cliente = entradaX.cliente ∧ r.estatus = entradaX.estatus ∧
      r.dias = entradaX.dias ∧ r.ultimoVendedor = entradaX.ultimoVendedor ∧
      r.ultimaFechaVenta = entradaX.ultimaFechaVenta) ∧
    (merge_catalogo [entradaX] (some [filaCatX1])).filas.length = [entradaX].length :=
  ⟨(C7_left_join [entradaX] [filaCatX1]).2.2.1 entradaX (by decide),
   (C7_left_join [entradaX] [filaCatX1]).2.2.2 (by decide)⟩

/-! ### Claim C8 -/

def tablaVentasEjemplo : TablaVentas :=
  { columnas := ["Fechadepedido"],
    filas := [{ cliente := some "A", vendedor := some "J",
                celdas := [("Fechadepedido", Celda.fecha 1)] }] }

def ventasEjemplo : List FilaPrep :=
  [{ cliente := some "A", vendedor := some "J", fechaVentaFila := some 1 }]

/-- C8 counterexample: with the same-workbook sheet unreadable and the
existing external catalog file raising a read exception, the run aborts with
that exception instead of succeeding with a no-op enrichment — so a catalog
failure can be fatal, refuting the claim for every failure mode. -/
theorem C8_contraejemplo :
    pipeline_local 100 true (Except.ok tablaVentasEjemplo) (Except.error "hoja ilegible")
      true (Except.error "catalogo ilegible") = Except.error "catalogo ilegible" := by
  decide

/-- C8 amended: a failure reading the same-workbook extract yields the
unavailable result and the pipeline proceeds to the external source: with a
valid external catalog the enrichment merges exactly the external data; with
the external file absent, and in drive mode (whose external catalog id is
unconfigured, so it is never read), the run succeeds with the directory
passed through a no-op enrichment.  Only an exception while reading an
existing, configured external catalog aborts the run. -/
theorem C8_catalogo_degradado (hoy : Int) (msg : String) (raw : TablaVentas)
    (ventas : List FilaPrep) (hprep : preparar_ventas raw = Except.ok ventas)
    (t : TablaCatExt) (ht : t.tieneLlave = true) (lectura : Except String TablaCatExt) :
    cargar_catalogo_mismo_excel (Except.error msg) = none ∧
    pipeline_local hoy true (Except.ok raw) (Except.error msg) true (Except.ok t) =
      Except.ok (merge_catalogo (calcular_directorio hoy ventas)
        (some (t.filas.map stripLlave))) ∧
    pipeline_local hoy true (Except.ok raw) (Except.error msg) false lectura =
      Except.ok (merge_catalogo (calcular_directorio hoy ventas) none) ∧
    pipeline_drive hoy (Except.ok raw) (Except.error msg) lectura =
      Except.ok (merge_catalogo (calcular_directorio hoy ventas) none) := by
  refine ⟨rfl, ?_, ?_, ?_⟩
  · simp [pipeline_local, hprep, cargar_catalogo_mismo_excel, cargar_catalogo_local, ht]
  · simp [pipeline_local, hprep, cargar_catalogo_mismo_excel, cargar_catalogo_local]
  · simp [pipeline_drive, hprep, cargar_catalogo_mismo_excel, cargar_catalogo_drive,
      GDRIVE_FILE_ID_CATALOGO]

/-- Witness for C8 amended: the concrete fallback run enriched from the
external catalog. -/
theorem C8_catalogo_degradado_witness :
    pipeline_local 100 true (Except.ok tablaVentasEjemplo) (Except.error "hoja ilegible") true
        (Except.ok { tieneLlave := true, filas := [filaCatX1] }) =
      Except.ok (merge_catalogo (calcular_directorio 100 ventasEjemplo)
        (some ([filaCatX1].map stripLlave))) :=
  (C8_catalogo_degradado 100 "hoja ilegible" tablaVentasEjemplo ventasEjemplo (by decide)
    { tieneLlave := true, filas := [filaCatX1] } (by decide) (Except.error "x")).2.1

/-! ### Claim C9 -/

/-- The two-key order of the final sort, read off an enriched row. -/
def leFinalFilas (a b : EntradaFinal) : Prop :=
  (ltCadena a.estatus b.estatus || (a.estatus == b.estatus && leDias a.dias b.dias)) = true

lemma pairwise_map_sinCatalogo (dir : List Entrada) (h : dir.Pairwise leFinal) :
    (dir.map sinCatalogo).Pairwise leFinalFilas := by
  rw [List.pairwise_map]
  refine h.imp ?_
  intro a b hab
  exact hab

lemma pairwise_flatMap_merge (cat : List FilaCat) :
    ∀ (dir : List Entrada), dir.Pairwise leFinal →
      (dir.flatMap (bloqueMerge cat)).Pairwise leFinalFilas := by
  intro dir
  induction dir with
  | nil => intro _; simp
  | cons e dir ih =>
    intro hp
    rw [List.pairwise_cons] at hp
    rw [List.flatMap_cons, List.pairwise_append]
    refine ⟨?_, ih hp.2, ?_⟩
    · refine pairwise_of_mem _ ?_
      intro x hx y hy
      obtain ⟨_, hx2, hx3, _, _⟩ := mem_bloqueMerge_campos cat e x hx
      obtain ⟨_, hy2, hy3, _, _⟩ := mem_bloqueMerge_campos cat e y hy
      unfold leFinalFilas
      rw [hx2, hy2, hx3, hy3]
      simp [leDias_refl]
    · intro x hx y hy
      obtain ⟨e2, he2, hye2⟩ := List.mem_flatMap.mp hy
      obtain ⟨_, hx2, hx3, _, _⟩ := mem_bloqueMerge_campos cat e x hx
      obtain ⟨_, hy2, hy3, _, _⟩ := mem_bloqueMerge_campos cat e2 y hye2
      have hle : leFinal e e2 := hp.1 e2 he2
      unfold leFinal leFinalB at hle
      unfold leFinalFilas
      rw [hx2, hx3, hy2, hy3]
      exact hle

lemma filter_orderedInsert_of_not {α : Type} {r : α → α → Prop} [DecidableRel r] (p : α → Bool)
    (a : α) (hpa : p a = false) :
    ∀ l, (List.orderedInsert r a l).filter p = l.filter p := by
  intro l
  induction l with
  | nil => simp [List.orderedInsert, hpa]
  | cons x xs ih =>
    rw [List.orderedInsert]
    by_cases hr : r a x
    · rw [if_pos hr, List.filter_cons]
      simp [hpa]
    · rw [if_neg hr, List.filter_cons, List.filter_cons]
      cases hx : p x
      · simp only [Bool.false_eq_true, if_false]
        exact ih
      · simp only [if_true]
        rw [ih]

lemma filter_orderedInsert_of_ties {α : Type} {r : α → α → Prop} [DecidableRel r] (p : α → Bool)
    (a : α) (hpa : p a = true) (hties : ∀ b, p b = true → r a b) :
    ∀ l, (List.orderedInsert r a l).filter p = a :: l.filter p := by
  intro l
  induction l with
  | nil => simp [List.orderedInsert, hpa]
  | cons x xs ih =>
    rw [List.orderedInsert]
    by_cases hr : r a x
    · rw [if_pos hr, List.filter_cons]
      simp [hpa]
    · rw [if_neg hr, List.filter_cons, List.filter_cons]
      have hx : p x = false := by
        cases hpx : p x
        · rfl
        · exact absurd (hties x hpx) hr
      simp only [hx, Bool.false_eq_true, if_false]
      exact ih

lemma filter_insertionSort_ties {α : Type} {r : α → α → Prop} [DecidableRel r] (p : α → Bool)
    (hties : ∀ a b, p a = true → p b = true → r a b) :
    ∀ l : List α, (List.insertionSort r l).filter p = l.filter p := by
  intro l
  induction l with
  | nil => rfl
  | cons a l ih =>
    rw [List.insertionSort]
    cases hpa : p a
    · rw [filter_orderedInsert_of_not p a hpa, ih, List.filter_cons]
      simp [hpa]
    · rw [filter_orderedInsert_of_ties p a hpa (fun b hb => hties a b hpa hb), ih,
        List.filter_cons]
      simp [hpa]

/-- C9: the final table's rows are sorted by the two-key order (status
ascending lexicographically, days since last sale ascending with missing
last); the sort is stable, in that each tie class of the two keys keeps the
relative order the rows had before the final sort; and the columns appear as
identity, the catalog fields in the canonical order city, email, country,
region, phone when a catalog is present, then status, recency, last vendor
and last sale date. -/
theorem C9_orden_final (hoy : Int) (fs : List FilaPrep) (cat : Option (List FilaCat)) :
    ((merge_catalogo (calcular_directorio hoy fs) cat).filas.Pairwise leFinalFilas) ∧
    (∀ s d, (calcular_directorio hoy fs).filter
        (fun e => e.estatus == s && e.dias == d) =
      (directorioSinOrden hoy fs).filter (fun e => e.estatus == s && e.dias == d)) ∧
    (cat = none → (merge_catalogo (calcular_directorio hoy fs) cat).columnas = COLS_DIR) ∧
    (∀ c, cat = some c → (merge_catalogo (calcular_directorio hoy fs) cat).columnas =
      [COL_CLIENTE, CAT_CIUDAD, CAT_EMAIL, CAT_PAIS, CAT_PROV, CAT_TEL,
       "Estatus", "Dias_desde_ultima_venta", "UltimoVendedor", "UltimaFechaVenta"]) := by
  have hs : (calcular_directorio hoy fs).Pairwise leFinal :=
    List.sorted_insertionSort leFinal _
  refine ⟨?_, ?_, ?_, ?_⟩
  · cases cat with
    | none => exact pairwise_map_sinCatalogo _ hs
    | some c =>
      rw [merge_catalogo_some_filas]
      exact pairwise_flatMap_merge c _ hs
  · intro s d
    unfold calcular_directorio
    apply filter_insertionSort_ties
    intro a b ha hb
    rw [Bool.and_eq_true] at ha hb
    have ha1 : a.estatus = s := eq_of_beq ha.1
    have ha2 : a.dias = d := eq_of_beq ha.2
    have hb1 : b.estatus = s := eq_of_beq hb.1
    have hb2 : b.dias = d := eq_of_beq hb.2
    unfold leFinal
    rw [leFinalB_iff]
    right
    rw [ha1, hb1, ha2, hb2]
    exact ⟨rfl, leDias_refl d⟩
  · intro h
    subst h
    rfl
  · intro c h
    subst h
    rfl

/-- Witness for C9: the column order of a concrete enriched run. -/
theorem C9_orden_final_witness :
    (merge_catalogo (calcular_directorio 100 [filaEjemplo]) (some [filaCatX1])).columnas =
      [COL_CLIENTE, CAT_CIUDAD, CAT_EMAIL, CAT_PAIS, CAT_PROV, CAT_TEL,
       "Estatus", "Dias_desde_ultima_venta", "UltimoVendedor", "UltimaFechaVenta"] :=
  (C9_orden_final 100 [filaEjemplo] (some [filaCatX1])).2.2.2 [filaCatX1] rfl

end Derma
